import Mathlib

/-!
Verification of the custom-integrator construction code in
`openmmtools/integrators.py`.

The integrators are OpenMM `CustomIntegrator` subclasses: their constructors
emit a fixed program of per-DOF / global compute instructions over a small
arithmetic expression language (Lepton).  We embed

* the expression language as an inductive `Expr` with a real-valued
  evaluator `Expr.eval` (engine `step(x) = 0` for `x < 0`, else `1`) and a
  NaN-aware evaluator `Expr.evalN` over `Option ℝ` (`none` = NaN), in which
  the result of `step` applied to NaN is a parameter (IEEE comparison
  semantics give `0`);
* the instruction sequences emitted by `MetropolisMonteCarloIntegrator`,
  `HMCIntegrator`, `GHMCIntegrator` and `LangevinSplittingIntegrator`
  as `List Instr` values built exactly as the Python constructors build them;
* the per-trial dynamics of the Metropolized integrators as explicit
  state-passing functions over `Fin n → ℝ` vectors, with the engine's
  potential, forces, constraint projections and random draws as parameters.
-/

namespace OpenMMTools

/-- Lepton-style arithmetic expressions, covering exactly the constructs the
integrator constructors use: variables, rational literals, field operations,
`sqrt`, `exp`, the Heaviside `step`, and the `delta` NaN/zero test. -/
inductive Expr where
  | const (q : ℚ)
  | var (name : String)
  | add (a b : Expr)
  | sub (a b : Expr)
  | mul (a b : Expr)
  | div (a b : Expr)
  | neg (a : Expr)
  | sqrt (a : Expr)
  | exp (a : Expr)
  | step (a : Expr)
  | delta (a : Expr)
  deriving DecidableEq, Repr

/-- OpenMM `step(x)`: `0` if `x < 0`, else `1`. -/
noncomputable def stepFn (x : ℝ) : ℝ := if x < 0 then 0 else 1

/-- OpenMM `delta(x)`: `1` if `x = 0`, else `0`. -/
noncomputable def deltaFn (x : ℝ) : ℝ := if x = 0 then 1 else 0

/-- Real-valued evaluation of an expression in a variable environment. -/
noncomputable def Expr.eval (env : String → ℝ) : Expr → ℝ
  | .const q => (q : ℝ)
  | .var n => env n
  | .add a b => a.eval env + b.eval env
  | .sub a b => a.eval env - b.eval env
  | .mul a b => a.eval env * b.eval env
  | .div a b => a.eval env / b.eval env
  | .neg a => -(a.eval env)
  | .sqrt a => Real.sqrt (a.eval env)
  | .exp a => Real.exp (a.eval env)
  | .step a => stepFn (a.eval env)
  | .delta a => deltaFn (a.eval env)

/-- Strict NaN propagation for binary operations: NaN in, NaN out. -/
def liftN2 (f : ℝ → ℝ → ℝ) : Option ℝ → Option ℝ → Option ℝ
  | some a, some b => some (f a b)
  | _, _ => none

/-- NaN-aware evaluation over `Option ℝ` (`none` models NaN).  All arithmetic
operations and `exp` propagate NaN.  The value of `step` on a NaN argument is
the parameter `sN`: IEEE comparison semantics (`NaN >= 0` is false) give
`sN = 0`, which is what the engine computes; the parameter makes explicit
that this outcome is a property of the engine's `step`, not of the emitted
program. -/
noncomputable def Expr.evalN (sN : ℝ) (env : String → Option ℝ) : Expr → Option ℝ
  | .const q => some ((q : ℝ))
  | .var n => env n
  | .add a b => liftN2 (fun x y => x + y) (a.evalN sN env) (b.evalN sN env)
  | .sub a b => liftN2 (fun x y => x - y) (a.evalN sN env) (b.evalN sN env)
  | .mul a b => liftN2 (fun x y => x * y) (a.evalN sN env) (b.evalN sN env)
  | .div a b => liftN2 (fun x y => x / y) (a.evalN sN env) (b.evalN sN env)
  | .neg a => Option.map (fun x => -x) (a.evalN sN env)
  | .sqrt a => Option.map Real.sqrt (a.evalN sN env)
  | .exp a => Option.map Real.exp (a.evalN sN env)
  | .step a =>
      match a.evalN sN env with
      | none => some sN
      | some x => some (stepFn x)
  | .delta a => Option.map deltaFn (a.evalN sN env)

/-- One primitive `CustomIntegrator` instruction, mirroring the
`addCompute...` / `addConstrain...` / block API used by the constructors. -/
inductive Instr where
  | computeGlobal (name : String) (e : Expr)
  | computePerDof (name : String) (e : Expr)
  | computeSum (name : String) (e : Expr)
  | constrainPositions
  | constrainVelocities
  | updateContextState
  | beginIfBlock (cond : String)
  | endBlock
  deriving DecidableEq, Repr

/-- The kinetic-energy summand `0.5*m*v*v` used by the Metropolized
integrators and by `LangevinSplittingIntegrator` bookkeeping. -/
def keExpr : Expr :=
  .mul (.mul (.mul (.const (1/2)) (.var "m")) (.var "v")) (.var "v")

/-- GHMC / VVVR partial velocity randomization
`sqrt(b)*v + sqrt(1-b)*sigma*gaussian`. -/
def vmixExpr : Expr :=
  .add (.mul (.sqrt (.var "b")) (.var "v"))
    (.mul (.mul (.sqrt (.sub (.const 1) (.var "b"))) (.var "sigma")) (.var "gaussian"))

/-- HMC acceptance expression `step(exp(-(Enew-Eold)/kT) - uniform)`
(integrators.py line 502). -/
def hmcAcceptExpr : Expr :=
  .step (.sub (.exp (.neg (.div (.sub (.var "Enew") (.var "Eold")) (.var "kT"))))
    (.var "uniform"))

/-- GHMC acceptance expression `step(exp(-(Enew-Eold)/kT) - uniform)`
(integrators.py line 634). -/
def ghmcAcceptExpr : Expr :=
  .step (.sub (.exp (.neg (.div (.sub (.var "Enew") (.var "Eold")) (.var "kT"))))
    (.var "uniform"))

/-- Metropolis MC acceptance expression
`step(exp(-(energy-Eold)/kT) - uniform)` (integrators.py line 386). -/
def mmcAcceptExpr : Expr :=
  .step (.sub (.exp (.neg (.div (.sub (.var "energy") (.var "Eold")) (.var "kT"))))
    (.var "uniform"))

/-- Syntactic check for an explicit NaN guard: the codebase's own idiom for
forcing a definite value out of a possibly-NaN quantity is a `delta(...)`
factor (see `GradientDescentMinimizationIntegrator`, line 180).  This
returns `true` iff the expression contains a `delta` node. -/
def hasDeltaGuard : Expr → Bool
  | .const _ => false
  | .var _ => false
  | .add a b => hasDeltaGuard a || hasDeltaGuard b
  | .sub a b => hasDeltaGuard a || hasDeltaGuard b
  | .mul a b => hasDeltaGuard a || hasDeltaGuard b
  | .div a b => hasDeltaGuard a || hasDeltaGuard b
  | .neg a => hasDeltaGuard a
  | .sqrt a => hasDeltaGuard a
  | .exp a => hasDeltaGuard a
  | .step a => hasDeltaGuard a
  | .delta _ => true

/-!  Program of `MetropolisMonteCarloIntegrator.__init__` (lines 368-390). -/

/-- Instruction sequence emitted by `MetropolisMonteCarloIntegrator`. -/
def mmcProgram : List Instr :=
  [ .updateContextState,
    .computePerDof "sigma_v" (.sqrt (.div (.var "kT") (.var "m"))),
    .computePerDof "v" (.mul (.var "sigma_v") (.var "gaussian")),
    .constrainVelocities,
    .computePerDof "xold" (.var "x"),
    .computeGlobal "Eold" (.var "energy"),
    .computePerDof "x" (.add (.var "x") (.mul (.var "sigma_x") (.var "gaussian"))),
    .computeGlobal "accept" mmcAcceptExpr,
    .computePerDof "x" (.add (.mul (.sub (.const 1) (.var "accept")) (.var "xold"))
      (.mul (.var "x") (.var "accept"))),
    .computeGlobal "naccept" (.add (.var "naccept") (.var "accept")),
    .computeGlobal "ntrials" (.add (.var "ntrials") (.const 1)) ]

/-!  Program of `HMCIntegrator.__init__` (lines 441-509). -/

/-- One velocity-Verlet sub-program of the HMC inner loop (lines 490-495). -/
def vvBlock : List Instr :=
  [ .computePerDof "v" (.add (.var "v")
      (.div (.mul (.mul (.const (1/2)) (.var "dt")) (.var "f")) (.var "m"))),
    .computePerDof "x" (.add (.var "x") (.mul (.var "dt") (.var "v"))),
    .computePerDof "x1" (.var "x"),
    .constrainPositions,
    .computePerDof "v" (.add (.add (.var "v")
      (.div (.mul (.mul (.const (1/2)) (.var "dt")) (.var "f")) (.var "m")))
      (.div (.sub (.var "x") (.var "x1")) (.var "dt"))),
    .constrainVelocities ]

/-- HMC instructions before the inner loop (lines 466-484). -/
def hmcPre : List Instr :=
  [ .computePerDof "sigma" (.sqrt (.div (.var "kT") (.var "m"))),
    .updateContextState,
    .computePerDof "v" (.mul (.var "sigma") (.var "gaussian")),
    .constrainVelocities,
    .computeSum "ke" keExpr,
    .computeGlobal "Eold" (.add (.var "ke") (.var "energy")),
    .computePerDof "xold" (.var "x") ]

/-- HMC instructions after the inner loop (lines 500-509). -/
def hmcPost : List Instr :=
  [ .computeSum "ke" keExpr,
    .computeGlobal "Enew" (.add (.var "ke") (.var "energy")),
    .computeGlobal "accept" hmcAcceptExpr,
    .computePerDof "x" (.add (.mul (.var "x") (.var "accept"))
      (.mul (.var "xold") (.sub (.const 1) (.var "accept")))),
    .computeGlobal "naccept" (.add (.var "naccept") (.var "accept")),
    .computeGlobal "ntrials" (.add (.var "ntrials") (.const 1)) ]

/-- Instruction sequence emitted by `HMCIntegrator` for a given `nsteps`:
the Python loop `for step in range(nsteps)` emits `nsteps` copies of the
velocity-Verlet block when `nsteps > 0` and none otherwise. -/
def hmcProgram (nsteps : Int) : List Instr :=
  hmcPre ++ (List.replicate nsteps.toNat vvBlock).flatten ++ hmcPost

/-- Construction of `HMCIntegrator`: the constructor performs no validation
of `nsteps`, so it returns the emitted program for every input. -/
def hmcConstruct (nsteps : Int) : Except String (List Instr) :=
  .ok (hmcProgram nsteps)

/-!  Program of `GHMCIntegrator.__init__` (lines 604-650). -/

/-- Instruction sequence emitted by `GHMCIntegrator`. -/
def ghmcProgram : List Instr :=
  [ .computePerDof "sigma" (.sqrt (.div (.var "kT") (.var "m"))),
    .computePerDof "v" vmixExpr,
    .constrainVelocities,
    .constrainPositions,
    .constrainVelocities,
    .computeSum "ke" keExpr,
    .computeGlobal "Eold" (.add (.var "ke") (.var "energy")),
    .computePerDof "xold" (.var "x"),
    .computePerDof "vold" (.var "v"),
    .computePerDof "v" (.add (.var "v")
      (.div (.mul (.mul (.const (1/2)) (.var "dt")) (.var "f")) (.var "m"))),
    .computePerDof "x" (.add (.var "x") (.mul (.var "v") (.var "dt"))),
    .computePerDof "x1" (.var "x"),
    .constrainPositions,
    .computePerDof "v" (.add (.add (.var "v")
      (.div (.mul (.mul (.const (1/2)) (.var "dt")) (.var "f")) (.var "m")))
      (.div (.sub (.var "x") (.var "x1")) (.var "dt"))),
    .constrainVelocities,
    .computeSum "ke" keExpr,
    .computeGlobal "Enew" (.add (.var "ke") (.var "energy")),
    .computeGlobal "accept" ghmcAcceptExpr,
    .beginIfBlock "accept != 1",
    .computePerDof "x" (.var "xold"),
    .computePerDof "v" (.neg (.var "vold")),
    .endBlock,
    .computePerDof "v" vmixExpr,
    .constrainVelocities,
    .computeGlobal "naccept" (.add (.var "naccept") (.var "accept")),
    .computeGlobal "ntrials" (.add (.var "ntrials") (.const 1)) ]

/-!  `LangevinSplittingIntegrator.__init__` (lines 780-891). -/

/-- Uppercased symbol sequence of the splitting string, mirroring
`splitting = splitting.upper()` followed by per-character iteration. -/
def upperChars (s : String) : List Char := s.toList.map Char.toUpper

/-- The four boolean construction flags of `LangevinSplittingIntegrator`. -/
structure LangevinFlags where
  monitor_work : Bool
  monitor_heat : Bool
  position_constraints : Bool
  velocity_constraints : Bool
  deriving DecidableEq, Repr

/-- Default flag values of `LangevinSplittingIntegrator.__init__`. -/
def defaultFlags : LangevinFlags :=
  { monitor_work := false, monitor_heat := false,
    position_constraints := true, velocity_constraints := true }

/-- The `update_equations` dictionary (lines 822-825): the per-DOF update
for each step kind, given the occurrence counts `n_A`, `n_B`.
`A` is `x + (dt / n_A) * v`, `B` is `v + (dt / n_B) * f`, and `O` is
`b * v + sqrt( kT * (1 - b*b)) * gaussian / sqrt(m)`. -/
def update_equations (nA nB : ℕ) : Char → String × Expr
  | 'A' => ("x", .add (.var "x") (.mul (.div (.var "dt") (.const (nA : ℚ))) (.var "v")))
  | 'B' => ("v", .add (.var "v") (.mul (.div (.var "dt") (.const (nB : ℚ))) (.var "f")))
  | _ => ("v", .add (.mul (.var "b") (.var "v"))
      (.div (.mul (.sqrt (.mul (.var "kT")
        (.sub (.const 1) (.mul (.var "b") (.var "b"))))) (.var "gaussian"))
        (.sqrt (.var "m"))))

/-- `compute_pre_step_energies` closure (lines 831-836). -/
def compute_pre_step_energies (fl : LangevinFlags) (c : Char) : List Instr :=
  (if (fl.monitor_work || fl.monitor_heat) && (c = 'O' || c = 'B') then
    [.computeSum "old_ke" keExpr] else [])
  ++ (if fl.monitor_work && c = 'A' then
    [.computeGlobal "old_pe" (.var "energy")] else [])

/-- `apply_constraints` closure (lines 838-842). -/
def apply_constraints (fl : LangevinFlags) (c : Char) : List Instr :=
  (if fl.position_constraints && c = 'A' then [.constrainPositions] else [])
  ++ (if fl.velocity_constraints && (c = 'O' || c = 'B') then
    [.constrainVelocities] else [])

/-- `compute_post_step_energies` closure (lines 844-849). -/
def compute_post_step_energies (fl : LangevinFlags) (c : Char) : List Instr :=
  (if c = 'O' && (fl.monitor_work || fl.monitor_heat) then
    [.computeSum "new_ke" keExpr] else [])
  ++ (if fl.monitor_work && c = 'A' then
    [.computeGlobal "new_pe" (.var "energy")] else [])

/-- `accumulate_heat_or_work` closure (lines 851-860). -/
def accumulate_heat_or_work (fl : LangevinFlags) (c : Char) : List Instr :=
  (if fl.monitor_work && c = 'A' then
    [.computeGlobal "shadow_work"
      (.add (.var "shadow_work") (.sub (.var "new_pe") (.var "old_pe")))] else [])
  ++ (if fl.monitor_work && c = 'B' then
    [.computeGlobal "shadow_work"
      (.add (.var "shadow_work") (.sub (.var "new_ke") (.var "old_ke")))] else [])
  ++ (if fl.monitor_heat && c = 'O' then
    [.computeGlobal "heat"
      (.add (.var "heat") (.sub (.var "new_ke") (.var "old_ke")))] else [])

/-- Instructions emitted for one symbol of the splitting string, in the
fixed order of the main loop (lines 883-891). -/
def langevinEmitStep (fl : LangevinFlags) (nA nB : ℕ) (c : Char) : List Instr :=
  compute_pre_step_energies fl c
  ++ [.computePerDof (update_equations nA nB c).1 (update_equations nA nB c).2]
  ++ apply_constraints fl c
  ++ compute_post_step_energies fl c
  ++ accumulate_heat_or_work fl c

/-- The full instruction sequence of `LangevinSplittingIntegrator`: the
splitting string is uppercased, occurrence counts are taken, and the main
loop iterates over the uppercased symbols in order. -/
def langevinProgram (fl : LangevinFlags) (splitting : String) : List Instr :=
  let s := upperChars splitting
  (s.map (langevinEmitStep fl (s.count 'A') (s.count 'B'))).flatten

/-- Construction of `LangevinSplittingIntegrator` (lines 807-819): the
splitting string is uppercased, then
`assert (set(splitting) == set('ABO'))` and `assert (n_O == 1)` must hold,
otherwise construction fails. -/
def langevinConstruct (fl : LangevinFlags) (splitting : String) :
    Except String (List Instr) :=
  let s := upperChars splitting
  if s.toFinset = ({'A', 'B', 'O'} : Finset Char) then
    if s.count 'O' = 1 then
      .ok (langevinProgram fl splitting)
    else
      .error "assert n_O == 1"
  else
    .error "assert set(splitting) == set(ABO)"

/-!  Functional per-trial semantics of the Metropolized integrators.

The engine-owned data (masses, potential energy as a function of positions,
forces, constraint projections) and the random draws consumed in one trial
are explicit parameters; DOF vectors are `Fin n → ℝ`. -/

/-- Engine-side data a Metropolized integrator reads during one trial. -/
structure Engine (n : ℕ) where
  kT : ℝ
  b : ℝ
  dt : ℝ
  m : Fin n → ℝ
  pe : (Fin n → ℝ) → ℝ
  force : (Fin n → ℝ) → Fin n → ℝ
  projX : (Fin n → ℝ) → (Fin n → ℝ)
  projV : (Fin n → ℝ) → (Fin n → ℝ)

/-- Result of `addComputeSum "ke" "0.5*m*v*v"`. -/
noncomputable def kineticEnergy {n : ℕ} (m v : Fin n → ℝ) : ℝ :=
  ∑ i, (1/2) * m i * v i * v i

/-- Result of `addComputePerDof "sigma" "sqrt(kT/m)"`. -/
noncomputable def sigmaOf {n : ℕ} (E : Engine n) : Fin n → ℝ :=
  fun i => Real.sqrt (E.kT / E.m i)

/-- Mutable state of a Metropolis-MC or HMC trial as seen by the caller. -/
structure McState (n : ℕ) where
  x : Fin n → ℝ
  v : Fin n → ℝ
  naccept : ℝ
  ntrials : ℝ

/-- One trial of `MetropolisMonteCarloIntegrator` (lines 368-390): resample
velocities, snapshot position and potential energy, displace positions by
`sigma_x*gaussian`, Metropolize on the potential-energy difference, commit
or roll back the position, update counters. -/
noncomputable def mmcTrial {n : ℕ} (E : Engine n) (sigmax gv gx : Fin n → ℝ)
    (u : ℝ) (s : McState n) : McState n :=
  let sigmav := sigmaOf E
  let v0 := E.projV (fun i => sigmav i * gv i)
  let xold := s.x
  let Eold := E.pe s.x
  let x1 := fun i => s.x i + sigmax i * gx i
  let accept := stepFn (Real.exp (-(E.pe x1 - Eold) / E.kT) - u)
  let x2 := fun i => (1 - accept) * xold i + x1 i * accept
  ⟨x2, v0, s.naccept + accept, s.ntrials + 1⟩

/-- One velocity-Verlet sub-step of the HMC inner loop (lines 490-495),
acting on a position/velocity pair. -/
noncomputable def vvSub {n : ℕ} (E : Engine n) :
    ((Fin n → ℝ) × (Fin n → ℝ)) → ((Fin n → ℝ) × (Fin n → ℝ)) :=
  fun p =>
    let v1 := fun i => p.2 i + (1/2) * E.dt * E.force p.1 i / E.m i
    let x1 := fun i => p.1 i + E.dt * v1 i
    let x1reg := x1
    let x2 := E.projX x1
    let v2 := fun i => v1 i + (1/2) * E.dt * E.force x2 i / E.m i
      + (x2 i - x1reg i) / E.dt
    (x2, E.projV v2)

/-- One trial of `HMCIntegrator` (lines 466-509): full velocity resample,
snapshot total energy and position, `nsteps` velocity-Verlet sub-steps,
Metropolize on the total-energy difference, commit or roll back the
position (the velocity is left as proposed), update counters. -/
noncomputable def hmcTrial {n : ℕ} (E : Engine n) (nsteps : Int)
    (g : Fin n → ℝ) (u : ℝ) (s : McState n) : McState n :=
  let sigma := sigmaOf E
  let v0 := E.projV (fun i => sigma i * g i)
  let Eold := kineticEnergy E.m v0 + E.pe s.x
  let xold := s.x
  let p := (vvSub E)^[nsteps.toNat] (s.x, v0)
  let Enew := kineticEnergy E.m p.2 + E.pe p.1
  let accept := stepFn (Real.exp (-(Enew - Eold) / E.kT) - u)
  let x2 := fun i => p.1 i * accept + xold i * (1 - accept)
  ⟨x2, p.2, s.naccept + accept, s.ntrials + 1⟩

/-- Intermediate values of one GHMC trial, up to and including the
accept/reject block (lines 604-638): `x`/`v` are the registers right after
the `accept != 1` conditional block, `xprop`/`vprop` the proposed values
entering it, `xold`/`vold` the trial snapshot. -/
structure GhmcCore (n : ℕ) where
  xold : Fin n → ℝ
  vold : Fin n → ℝ
  xprop : Fin n → ℝ
  vprop : Fin n → ℝ
  Eold : ℝ
  Enew : ℝ
  accept : ℝ
  x : Fin n → ℝ
  v : Fin n → ℝ

/-- The GHMC Metropolized symplectic step (lines 604-638): partial velocity
randomization, constraint projections, total-energy snapshot, one velocity
Verlet step, total-energy evaluation, Metropolis test, and the
`accept != 1` rollback block assigning `x := xold`, `v := -vold`. -/
noncomputable def ghmcCore {n : ℕ} (E : Engine n) (g1 : Fin n → ℝ) (u : ℝ)
    (x0 v0 : Fin n → ℝ) : GhmcCore n :=
  let sigma := sigmaOf E
  let vR := E.projV (fun i => Real.sqrt E.b * v0 i
    + Real.sqrt (1 - E.b) * sigma i * g1 i)
  let xC := E.projX x0
  let vC := E.projV vR
  let Eold := kineticEnergy E.m vC + E.pe xC
  let xold := xC
  let vold := vC
  let v1 := fun i => vC i + (1/2) * E.dt * E.force xC i / E.m i
  let x1 := fun i => xC i + v1 i * E.dt
  let x1reg := x1
  let x2 := E.projX x1
  let v2 := fun i => v1 i + (1/2) * E.dt * E.force x2 i / E.m i
    + (x2 i - x1reg i) / E.dt
  let v3 := E.projV v2
  let Enew := kineticEnergy E.m v3 + E.pe x2
  let accept := stepFn (Real.exp (-(Enew - Eold) / E.kT) - u)
  let xFinal := if accept ≠ 1 then xold else x2
  let vFinal := if accept ≠ 1 then (fun i => -vold i) else v3
  ⟨xold, vold, x2, v3, Eold, Enew, accept, xFinal, vFinal⟩

/-- Mutable state of a GHMC trial as seen by the caller. -/
structure GhmcState (n : ℕ) where
  x : Fin n → ℝ
  v : Fin n → ℝ
  naccept : ℝ
  ntrials : ℝ

/-- One full trial of `GHMCIntegrator` (lines 604-650): the Metropolized
symplectic step, then the second partial velocity randomization (lines
640-644), then the statistics update (lines 646-650). -/
noncomputable def ghmcTrial {n : ℕ} (E : Engine n) (g1 g2 : Fin n → ℝ)
    (u : ℝ) (s : GhmcState n) : GhmcState n :=
  let c := ghmcCore E g1 u s.x s.v
  let sigma := sigmaOf E
  let vR2 := E.projV (fun i => Real.sqrt E.b * c.v i
    + Real.sqrt (1 - E.b) * sigma i * g2 i)
  ⟨c.x, vR2, s.naccept + c.accept, s.ntrials + 1⟩

/-- Iterated Metropolis-MC trials: fold over per-trial draw triples
(velocity gaussians, displacement gaussians, uniform). -/
noncomputable def mmcRun {n : ℕ} (E : Engine n) (sigmax : Fin n → ℝ)
    (l : List ((Fin n → ℝ) × (Fin n → ℝ) × ℝ)) (s : McState n) : McState n :=
  l.foldl (fun st d => mmcTrial E sigmax d.1 d.2.1 d.2.2 st) s

/-- Iterated HMC trials: fold over per-trial draw pairs
(velocity gaussians, uniform). -/
noncomputable def hmcRun {n : ℕ} (E : Engine n) (nsteps : Int)
    (l : List ((Fin n → ℝ) × ℝ)) (s : McState n) : McState n :=
  l.foldl (fun st d => hmcTrial E nsteps d.1 d.2 st) s

/-- Iterated GHMC trials: fold over per-trial draw triples
(two gaussian vectors and a uniform). -/
noncomputable def ghmcRun {n : ℕ} (E : Engine n)
    (l : List ((Fin n → ℝ) × (Fin n → ℝ) × ℝ)) (s : GhmcState n) : GhmcState n :=
  l.foldl (fun st d => ghmcTrial E d.1 d.2.1 d.2.2 st) s

/-- Whether an `Except`-valued construction succeeded. -/
def okB {ε α : Type} : Except ε α → Bool
  | .ok _ => true
  | .error _ => false

/-!  Concrete inputs used by witnesses and counterexamples. -/

/-- Environment with `f = 3`, `m = 2`, `dt = 1` and all other registers `0`,
used to evaluate the Kick update on one concrete degree of freedom. -/
noncomputable def envB : String → ℝ := fun nm =>
  if nm = "f" then 3 else if nm = "m" then 2 else if nm = "dt" then 1 else 0

/-- Environment describing a state whose potential energy is `2` and whose
already-summed kinetic energy register is `1`. -/
noncomputable def envKE : String → ℝ := fun nm =>
  if nm = "energy" then 2 else if nm = "ke" then 1 else 0

/-- Environment realizing an exact tie: `Enew - Eold = 1`, `kT = 1`, and the
uniform draw equal to the Metropolis ratio `exp(-1)`. -/
noncomputable def envTie : String → ℝ := fun nm =>
  if nm = "Enew" then 1
  else if nm = "uniform" then Real.exp (-1)
  else if nm = "kT" then 1 else 0

/-- NaN environment: the post-proposal energy registers are NaN, everything
else is `0`. -/
noncomputable def envNaN : String → Option ℝ := fun nm =>
  if nm = "Enew" then none else if nm = "energy" then none else some 0

/-- Environment for the counter update with `accept = 0`, `naccept = 0`. -/
noncomputable def envAcc : String → Option ℝ := fun _ => some 0

/-- A one-DOF engine: unit thermal energy, unit mass, unit timestep, mixing
parameter `b = 1`, potential energy equal to the position coordinate, zero
force, and no constraints (identity projections). -/
noncomputable def Eho : Engine 1 :=
  { kT := 1, b := 1, dt := 1, m := fun _ => 1,
    pe := fun xs => xs 0, force := fun _ _ => 0,
    projX := id, projV := id }

/-- The zero position vector of the one-DOF witness system. -/
noncomputable def xZero : Fin 1 → ℝ := fun _ => 0

/-- The unit velocity vector of the one-DOF witness system. -/
noncomputable def vOne : Fin 1 → ℝ := fun _ => 1

/-- The zero gaussian draw of the one-DOF witness system. -/
noncomputable def gZero : Fin 1 → ℝ := fun _ => 0

/-- A uniform draw of `1/2`. -/
noncomputable def uHalf : ℝ := 1 / 2

/-- Initial GHMC state of the one-DOF witness system. -/
noncomputable def stHo : GhmcState 1 := ⟨xZero, vOne, 0, 0⟩

/-!  Helper lemmas. -/

theorem stepFn_eq_one_iff (x : ℝ) : stepFn x = 1 ↔ 0 ≤ x := by
  unfold stepFn
  split_ifs with h
  · exact iff_of_false (by norm_num) (not_le.mpr h)
  · exact iff_of_true rfl (not_lt.mp h)

theorem stepFn_eq_zero_iff (x : ℝ) : stepFn x = 0 ↔ x < 0 := by
  unfold stepFn
  split_ifs with h
  · exact iff_of_true rfl h
  · exact iff_of_false (by norm_num) h

theorem stepFn_mem (x : ℝ) : stepFn x = 0 ∨ stepFn x = 1 := by
  unfold stepFn
  split_ifs <;> simp

theorem stepFn_le_one (x : ℝ) : stepFn x ≤ 1 := by
  unfold stepFn
  split_ifs <;> norm_num

theorem liftN2_none_left (f : ℝ → ℝ → ℝ) (y : Option ℝ) :
    liftN2 f none y = none := by
  cases y <;> rfl

theorem liftN2_some (f : ℝ → ℝ → ℝ) (a b : ℝ) :
    liftN2 f (some a) (some b) = some (f a b) := rfl

theorem toFinset_eq_ABO_iff (u : List Char) :
    u.toFinset = ({'A', 'B', 'O'} : Finset Char) ↔
      ('A' ∈ u ∧ 'B' ∈ u ∧ 'O' ∈ u ∧ ∀ c ∈ u, c = 'A' ∨ c = 'B' ∨ c = 'O') := by
  constructor
  · intro h
    have hmem : ∀ c : Char, c ∈ u ↔ (c = 'A' ∨ c = 'B' ∨ c = 'O') := by
      intro c
      rw [← List.mem_toFinset, h]
      simp
    refine ⟨(hmem 'A').mpr (by simp), (hmem 'B').mpr (by simp),
      (hmem 'O').mpr (by simp), fun c hc => (hmem c).mp hc⟩
  · rintro ⟨hA, hB, hO, hall⟩
    ext c
    simp only [List.mem_toFinset, Finset.mem_insert, Finset.mem_singleton]
    exact ⟨fun hc => hall c hc, by rintro (rfl | rfl | rfl) <;> assumption⟩

theorem langevinConstruct_ok_iff (fl : LangevinFlags) (s : String) :
    okB (langevinConstruct fl s) = true ↔
      ('A' ∈ upperChars s ∧ 'B' ∈ upperChars s ∧ 'O' ∈ upperChars s ∧
        (∀ c ∈ upperChars s, c = 'A' ∨ c = 'B' ∨ c = 'O') ∧
        (upperChars s).count 'O' = 1) := by
  simp only [langevinConstruct]
  split_ifs with h1 h2
  · obtain ⟨hA, hB, hO, hall⟩ := (toFinset_eq_ABO_iff _).mp h1
    exact iff_of_true rfl ⟨hA, hB, hO, hall, h2⟩
  · refine iff_of_false (by simp [okB]) ?_
    rintro ⟨-, -, -, -, hc⟩
    exact h2 hc
  · refine iff_of_false (by simp [okB]) ?_
    rintro ⟨hA, hB, hO, hall, -⟩
    exact h1 ((toFinset_eq_ABO_iff _).mpr ⟨hA, hB, hO, hall⟩)

theorem foldl_counter_invariant {σ α : Type} (f : σ → α → σ) (nacc ntr : σ → ℝ)
    (hstep : ∀ s a, ntr (f s a) = ntr s + 1 ∧ nacc (f s a) ≤ nacc s + 1)
    (l : List α) (s : σ) (h : nacc s ≤ ntr s) :
    nacc (List.foldl f s l) ≤ ntr (List.foldl f s l) ∧
    ntr (List.foldl f s l) = ntr s + l.length := by
  induction l generalizing s with
  | nil => simpa using h
  | cons a t ih =>
    simp only [List.foldl_cons, List.length_cons]
    have h1 := hstep s a
    have h2 := ih (f s a) (by linarith [h1.1, h1.2])
    refine ⟨h2.1, ?_⟩
    rw [h2.2, h1.1]
    push_cast
    ring

/-!  Claim theorems. -/

/-- C4: constructing a `LangevinSplittingIntegrator` succeeds exactly when
the uppercased splitting string contains each of `A`, `B`, `O` at least
once, contains no other character, and contains `O` exactly once; any
string missing a symbol, containing a foreign symbol, or repeating `O`
fails the construction-time asserts. -/
theorem langevin_scheme_validation (fl : LangevinFlags) (s : String) :
    okB (langevinConstruct fl s) = true ↔
      ('A' ∈ upperChars s ∧ 'B' ∈ upperChars s ∧ 'O' ∈ upperChars s ∧
        (∀ c ∈ upperChars s, c = 'A' ∨ c = 'B' ∨ c = 'O') ∧
        (upperChars s).count 'O' = 1) :=
  langevinConstruct_ok_iff fl s

/-- C6: in the emitted update equations the per-occurrence Drift weight is
`dt/n_A` and the per-occurrence Kick weight is `dt/n_B`, and for every
validly constructed scheme, summing a kind's weight over all its
occurrences reconstructs the full timestep exactly. -/
theorem langevin_substep_weights (fl : LangevinFlags) (s : String)
    (env : String → ℝ) (h : okB (langevinConstruct fl s) = true) :
    ((update_equations ((upperChars s).count 'A') ((upperChars s).count 'B') 'A').2.eval env
      = env "x" + env "dt" / ((upperChars s).count 'A' : ℝ) * env "v") ∧
    ((update_equations ((upperChars s).count 'A') ((upperChars s).count 'B') 'B').2.eval env
      = env "v" + env "dt" / ((upperChars s).count 'B' : ℝ) * env "f") ∧
    (((upperChars s).count 'A' : ℝ) * (env "dt" / ((upperChars s).count 'A' : ℝ))
      = env "dt") ∧
    (((upperChars s).count 'B' : ℝ) * (env "dt" / ((upperChars s).count 'B' : ℝ))
      = env "dt") := by
  obtain ⟨hA, hB, -, -, -⟩ := (langevinConstruct_ok_iff fl s).mp h
  have hA0 : (((upperChars s).count 'A' : ℝ)) ≠ 0 := by
    exact_mod_cast (List.count_pos_iff.mpr hA).ne'
  have hB0 : (((upperChars s).count 'B' : ℝ)) ≠ 0 := by
    exact_mod_cast (List.count_pos_iff.mpr hB).ne'
  refine ⟨?_, ?_, ?_, ?_⟩
  · simp [update_equations, Expr.eval]
  · simp [update_equations, Expr.eval]
  · rw [mul_comm]
    exact div_mul_cancel₀ _ hA0
  · rw [mul_comm]
    exact div_mul_cancel₀ _ hB0

/-- C6 witness: the scheme `"OAB"` constructs successfully and satisfies the
weight equations at the concrete environment `envB`. -/
theorem langevin_substep_weights_witness :
    okB (langevinConstruct defaultFlags "OAB") = true ∧
    (((update_equations ((upperChars "OAB").count 'A') ((upperChars "OAB").count 'B') 'A').2.eval envB
      = envB "x" + envB "dt" / ((upperChars "OAB").count 'A' : ℝ) * envB "v") ∧
    ((update_equations ((upperChars "OAB").count 'A') ((upperChars "OAB").count 'B') 'B').2.eval envB
      = envB "v" + envB "dt" / ((upperChars "OAB").count 'B' : ℝ) * envB "f") ∧
    (((upperChars "OAB").count 'A' : ℝ) * (envB "dt" / ((upperChars "OAB").count 'A' : ℝ))
      = envB "dt") ∧
    (((upperChars "OAB").count 'B' : ℝ) * (envB "dt" / ((upperChars "OAB").count 'B' : ℝ))
      = envB "dt")) :=
  ⟨by decide, langevin_substep_weights defaultFlags "OAB" envB (by decide)⟩

/-- C1: the Kick update emitted by `LangevinSplittingIntegrator` is
`v + (dt/n_B)*f`, which omits the division by mass: at a DOF with
`v = 0`, `f = 3`, `m = 2`, `dt = 1` and `n_B = 1` the emitted update
produces `3`, whereas the claimed update `v + (dt/n_B)*f/m` produces
`3/2`. -/
theorem langevin_kick_omits_mass_division :
    Instr.computePerDof "v" ((update_equations 1 1 'B').2)
      ∈ langevinProgram defaultFlags "OAB" ∧
    (update_equations 1 1 'B').2.eval envB = 3 ∧
    envB "v" + envB "dt" / 1 * envB "f" / envB "m" = 3 / 2 ∧
    (3 : ℝ) ≠ 3 / 2 := by
  refine ⟨by decide, ?_, ?_, by norm_num⟩
  · simp [update_equations, Expr.eval, envB]
  · simp [envB]

/-- C2 counterexample: nothing in the emitted acceptance computation
enforces rejection on NaN.  Under an engine whose `step` maps a NaN
argument to `1` instead of `0`, the very same acceptance expression yields
`accept = 1` on a NaN energy difference, and the expression contains no
`delta`-style NaN guard: the rejection observed in practice is the
incidental IEEE behaviour of `step`, not an explicit enforcement. -/
theorem nan_rejection_not_explicit :
    ghmcAcceptExpr.evalN 1 envNaN = some 1 ∧
    hasDeltaGuard ghmcAcceptExpr = false ∧
    some (1 : ℝ) ≠ some (0 : ℝ) := by
  refine ⟨?_, by decide, by simp⟩
  simp [ghmcAcceptExpr, Expr.evalN, envNaN, liftN2_none_left]

/-- C2 (amended): for each Metropolized integrator, a NaN value of the
post-proposal energy propagates through the acceptance expression to the
`step` function, whose IEEE comparison semantics (`NaN >= 0` false) then
deterministically yield `accept = 0`; evaluation is total (no exception)
and the subsequent counter update `naccept + accept` is unaffected.  The
rejection is the incidental behaviour of `step` on NaN, not an explicit
guard in the program. -/
theorem nan_energy_forced_rejection (env envc : String → Option ℝ) (a : ℝ)
    (hE : env "Enew" = none) (hpe : env "energy" = none)
    (hna : envc "naccept" = some a) (hac : envc "accept" = some 0) :
    ghmcAcceptExpr.evalN 0 env = some 0 ∧
    hmcAcceptExpr.evalN 0 env = some 0 ∧
    mmcAcceptExpr.evalN 0 env = some 0 ∧
    (Expr.add (Expr.var "naccept") (Expr.var "accept")).evalN 0 envc = some a := by
  refine ⟨?_, ?_, ?_, ?_⟩
  · simp [ghmcAcceptExpr, Expr.evalN, hE, liftN2_none_left]
  · simp [hmcAcceptExpr, Expr.evalN, hE, liftN2_none_left]
  · simp [mmcAcceptExpr, Expr.evalN, hpe, liftN2_none_left]
  · simp [Expr.evalN, hna, hac, liftN2_some]

/-- C2 witness: the NaN environment satisfies the hypotheses and forces
`accept = 0` in all three acceptance expressions. -/
theorem nan_energy_forced_rejection_witness :
    (envNaN "Enew" = none ∧ envNaN "energy" = none ∧
      envAcc "naccept" = some (0 : ℝ) ∧ envAcc "accept" = some (0 : ℝ)) ∧
    (ghmcAcceptExpr.evalN 0 envNaN = some 0 ∧
      hmcAcceptExpr.evalN 0 envNaN = some 0 ∧
      mmcAcceptExpr.evalN 0 envNaN = some 0 ∧
      (Expr.add (Expr.var "naccept") (Expr.var "accept")).evalN 0 envAcc = some 0) :=
  ⟨⟨by simp [envNaN], by simp [envNaN], rfl, rfl⟩,
    nan_energy_forced_rejection envNaN envAcc 0
      (by simp [envNaN]) (by simp [envNaN]) rfl rfl⟩

/-- C3 counterexample: at an exact tie between the uniform draw and the
Metropolis ratio (`Enew - Eold = 1`, `kT = 1`, `uniform = exp(-1)`), the
emitted acceptance expression evaluates to `1` (acceptance), not `0`
(rejection): the comparison implemented by `step` is non-strict. -/
theorem metropolis_tie_accepted :
    ghmcAcceptExpr.eval envTie = 1 ∧ (1 : ℝ) ≠ 0 := by
  refine ⟨?_, by norm_num⟩
  have h1 : envTie "Enew" = 1 := by simp [envTie]
  have h2 : envTie "Eold" = 0 := by simp [envTie]
  have h3 : envTie "kT" = 1 := by simp [envTie]
  have h4 : envTie "uniform" = Real.exp (-1) := by simp [envTie]
  dsimp only [ghmcAcceptExpr, Expr.eval]
  rw [h1, h2, h3, h4]
  rw [show (-(((1 : ℝ) - 0) / 1) : ℝ) = -1 by norm_num, sub_self]
  simp [stepFn]

/-- C3 (amended): in every Metropolized integrator the acceptance test is
non-strict: `accept = 1` iff `uniform <= exp(-(E_new - E_old)/kT)` and
`accept = 0` iff the ratio is strictly below the draw; a uniform draw
exactly equal to the Metropolis ratio results in acceptance. -/
theorem metropolis_acceptance_nonstrict (env : String → ℝ) :
    (ghmcAcceptExpr.eval env = 1 ↔
      env "uniform" ≤ Real.exp (-((env "Enew" - env "Eold") / env "kT"))) ∧
    (ghmcAcceptExpr.eval env = 0 ↔
      Real.exp (-((env "Enew" - env "Eold") / env "kT")) < env "uniform") ∧
    (hmcAcceptExpr.eval env = 1 ↔
      env "uniform" ≤ Real.exp (-((env "Enew" - env "Eold") / env "kT"))) ∧
    (mmcAcceptExpr.eval env = 1 ↔
      env "uniform" ≤ Real.exp (-((env "energy" - env "Eold") / env "kT"))) := by
  have key : ∀ a b : ℝ, (stepFn (a - b) = 1 ↔ b ≤ a) ∧ (stepFn (a - b) = 0 ↔ a < b) := by
    intro a b
    constructor
    · rw [stepFn_eq_one_iff]
      exact sub_nonneg
    · rw [stepFn_eq_zero_iff]
      exact sub_neg
  dsimp only [ghmcAcceptExpr, hmcAcceptExpr, mmcAcceptExpr, Expr.eval]
  exact ⟨(key _ _).1, (key _ _).2, (key _ _).1, (key _ _).1⟩

/-- C8 counterexample: `MetropolisMonteCarloIntegrator` stores
`Eold = energy` (potential only): no kinetic-energy sum is ever computed in
its program, and at a state with kinetic energy `1` and potential energy
`2` the stored snapshot is `2`, not the total `3`. -/
theorem mmc_eold_ignores_kinetic :
    Instr.computeGlobal "Eold" (Expr.var "energy") ∈ mmcProgram ∧
    Instr.computeSum "ke" keExpr ∉ mmcProgram ∧
    (Expr.var "energy").eval envKE = 2 ∧
    (Expr.add (Expr.var "ke") (Expr.var "energy")).eval envKE = 3 ∧
    (2 : ℝ) ≠ 3 := by
  refine ⟨by decide, by decide, ?_, ?_, by norm_num⟩
  · simp [Expr.eval, envKE]
  · simp [Expr.eval, envKE]
    norm_num

/-- C8 (amended): `HMCIntegrator` and `GHMCIntegrator` compute both energy
snapshots as `ke + energy` (kinetic plus potential, with `ke` the sum of
the per-DOF `0.5*m*v*v`), while plain `MetropolisMonteCarloIntegrator`
stores and compares potential energy only. -/
theorem metropolized_energy_totals (nsteps : Int) (env : String → ℝ) :
    Instr.computeGlobal "Eold" (Expr.add (Expr.var "ke") (Expr.var "energy"))
      ∈ hmcProgram nsteps ∧
    Instr.computeGlobal "Enew" (Expr.add (Expr.var "ke") (Expr.var "energy"))
      ∈ hmcProgram nsteps ∧
    Instr.computeGlobal "Eold" (Expr.add (Expr.var "ke") (Expr.var "energy"))
      ∈ ghmcProgram ∧
    Instr.computeGlobal "Enew" (Expr.add (Expr.var "ke") (Expr.var "energy"))
      ∈ ghmcProgram ∧
    Instr.computeGlobal "Eold" (Expr.var "energy") ∈ mmcProgram ∧
    (Expr.add (Expr.var "ke") (Expr.var "energy")).eval env
      = env "ke" + env "energy" ∧
    keExpr.eval env = 1 / 2 * env "m" * env "v" * env "v" := by
  refine ⟨?_, ?_, by decide, by decide, by decide, by simp [Expr.eval], ?_⟩
  · exact List.mem_append_left _ (List.mem_append_left _ (by decide))
  · exact List.mem_append_right _ (by decide)
  · simp [keExpr, Expr.eval]

/-- C9 counterexample: constructing an `HMCIntegrator` with `nsteps = 0`
does not fail: the constructor performs no validation, the Python loop
`range(0)` is empty, and the emitted program is just the 13 fixed
instructions with zero velocity-Verlet sub-programs. -/
theorem hmc_zero_nsteps_constructs :
    okB (hmcConstruct 0) = true ∧
    hmcProgram 0 = hmcPre ++ hmcPost ∧
    (hmcProgram 0).length = 13 := by
  refine ⟨rfl, ?_, ?_⟩
  · simp [hmcProgram]
  · simp [hmcProgram, hmcPre, hmcPost]

/-- C9 (amended): `HMCIntegrator` construction never fails: for every
integer `nsteps` it succeeds and emits the fixed 13-instruction frame plus
`max(nsteps, 0)` copies of the 6-instruction velocity-Verlet sub-program;
in particular non-positive `nsteps` silently yields zero sub-programs. -/
theorem hmc_construction_never_fails (nsteps : Int) :
    hmcConstruct nsteps = Except.ok (hmcProgram nsteps) ∧
    (hmcProgram nsteps).length = 13 + 6 * nsteps.toNat := by
  refine ⟨rfl, ?_⟩
  have hrep : ((List.replicate nsteps.toNat vvBlock).flatten).length
      = nsteps.toNat * 6 := by
    rw [List.length_flatten, List.map_replicate]
    simp [List.sum_replicate, vvBlock]
  simp [hmcProgram, List.length_append, hrep, hmcPre, hmcPost]
  omega

/-- On the one-DOF witness system the GHMC trial is rejected: the proposal
raises the energy by `1`, so the Metropolis ratio is `exp(-1) < 1/2`, the
uniform draw. -/
theorem acceptHo_eq_zero : (ghmcCore Eho gZero uHalf xZero vOne).accept = 0 := by
  have h2 : (2 : ℝ) < Real.exp 1 := lt_trans (by norm_num) Real.exp_one_gt_d9
  have hlt : Real.exp (-1) < 1 / 2 := by
    rw [Real.exp_neg]
    calc (Real.exp 1)⁻¹ < 2⁻¹ := by
          exact inv_strictAnti₀ (by norm_num) h2
      _ = 1 / 2 := by norm_num
  have hval : (ghmcCore Eho gZero uHalf xZero vOne).accept
      = stepFn (Real.exp (-1) - 1 / 2) := by
    simp [ghmcCore, Eho, gZero, xZero, vOne, uHalf, sigmaOf, kineticEnergy,
      Fin.sum_univ_one, Real.sqrt_one]
  rw [hval, stepFn_eq_zero_iff]
  linarith

/-- C5: in every GHMC trial the accept register is binary; on rejection
(`accept = 0`) the rollback block restores the position registers to the
pre-trial snapshot exactly and sets the velocity registers to the exact
negation of the pre-trial velocity, while on acceptance (`accept = 1`) the
proposed position and velocity pass through the accept/reject branch
unchanged. -/
theorem ghmc_rejection_rollback_exact {n : ℕ} (E : Engine n) (g1 : Fin n → ℝ)
    (u : ℝ) (x0 v0 : Fin n → ℝ) :
    ((ghmcCore E g1 u x0 v0).accept = 0 ∨ (ghmcCore E g1 u x0 v0).accept = 1) ∧
    ((ghmcCore E g1 u x0 v0).accept = 0 →
      (ghmcCore E g1 u x0 v0).x = (ghmcCore E g1 u x0 v0).xold ∧
      (ghmcCore E g1 u x0 v0).v = fun i => -((ghmcCore E g1 u x0 v0).vold i)) ∧
    ((ghmcCore E g1 u x0 v0).accept = 1 →
      (ghmcCore E g1 u x0 v0).x = (ghmcCore E g1 u x0 v0).xprop ∧
      (ghmcCore E g1 u x0 v0).v = (ghmcCore E g1 u x0 v0).vprop) := by
  refine ⟨?_, fun h => ?_, fun h => ?_⟩
  · dsimp only [ghmcCore]
    exact stepFn_mem _
  · dsimp only [ghmcCore] at h ⊢
    rw [h, if_pos (by norm_num : (0 : ℝ) ≠ 1), if_pos (by norm_num : (0 : ℝ) ≠ 1)]
    exact ⟨rfl, rfl⟩
  · dsimp only [ghmcCore] at h ⊢
    rw [h, if_neg (by norm_num : ¬(1 : ℝ) ≠ 1), if_neg (by norm_num : ¬(1 : ℝ) ≠ 1)]
    exact ⟨rfl, rfl⟩

/-- C5 witness: on the one-DOF witness system the trial is rejected, the
position register equals the snapshot and the velocity register the exact
negation of the snapshot velocity. -/
theorem ghmc_rejection_rollback_witness :
    (ghmcCore Eho gZero uHalf xZero vOne).accept = 0 ∧
    (ghmcCore Eho gZero uHalf xZero vOne).x = (ghmcCore Eho gZero uHalf xZero vOne).xold ∧
    (ghmcCore Eho gZero uHalf xZero vOne).v
      = fun i => -((ghmcCore Eho gZero uHalf xZero vOne).vold i) :=
  ⟨acceptHo_eq_zero,
    ((ghmc_rejection_rollback_exact Eho gZero uHalf xZero vOne).2.1 acceptHo_eq_zero).1,
    ((ghmc_rejection_rollback_exact Eho gZero uHalf xZero vOne).2.1 acceptHo_eq_zero).2⟩

/-- C10: the partial velocity randomization is applied twice per GHMC step:
the trial snapshot velocity is already the first remix of the caller's
velocity (for an unconstrained system), and after a rejected trial the
velocity visible to the caller is the second remix
`sqrt(b)*(-vold) + sqrt(1-b)*sigma*gaussian` of the negated snapshot, not
the bare negation; in the emitted program the two remix instructions sit at
positions 1 and 22, with the statistics update at positions 24 and 25,
directly after the second remix block. -/
theorem ghmc_double_randomization {n : ℕ} (E : Engine n) (g1 g2 : Fin n → ℝ)
    (u : ℝ) (s : GhmcState n) (hv : E.projV = id) :
    ((ghmcCore E g1 u s.x s.v).vold
      = fun i => Real.sqrt E.b * s.v i + Real.sqrt (1 - E.b) * sigmaOf E i * g1 i) ∧
    ((ghmcCore E g1 u s.x s.v).accept = 0 →
      (ghmcTrial E g1 g2 u s).v
        = fun i => Real.sqrt E.b * (-((ghmcCore E g1 u s.x s.v).vold i))
            + Real.sqrt (1 - E.b) * sigmaOf E i * g2 i) ∧
    ghmcProgram.get? 1 = some (.computePerDof "v" vmixExpr) ∧
    ghmcProgram.get? 22 = some (.computePerDof "v" vmixExpr) ∧
    ghmcProgram.get? 24
      = some (.computeGlobal "naccept" (.add (.var "naccept") (.var "accept"))) ∧
    ghmcProgram.get? 25
      = some (.computeGlobal "ntrials" (.add (.var "ntrials") (.const 1))) := by
  refine ⟨?_, fun h => ?_, rfl, rfl, rfl, rfl⟩
  · dsimp only [ghmcCore]
    rw [hv]
    rfl
  · have hcv : (ghmcCore E g1 u s.x s.v).v
        = fun i => -((ghmcCore E g1 u s.x s.v).vold i) := by
      dsimp only [ghmcCore] at h ⊢
      rw [h, if_pos (by norm_num : (0 : ℝ) ≠ 1)]
    show (ghmcTrial E g1 g2 u s).v = _
    dsimp only [ghmcTrial]
    rw [hv, hcv]
    rfl

/-- C10 witness: on the one-DOF unconstrained witness system the trial is
rejected and the caller-visible velocity is the fresh-noise remix of the
negated snapshot velocity. -/
theorem ghmc_double_randomization_witness :
    Eho.projV = id ∧
    (ghmcCore Eho gZero uHalf stHo.x stHo.v).accept = 0 ∧
    (ghmcTrial Eho gZero gZero uHalf stHo).v
      = fun i => Real.sqrt Eho.b * (-((ghmcCore Eho gZero uHalf stHo.x stHo.v).vold i))
          + Real.sqrt (1 - Eho.b) * sigmaOf Eho i * gZero i :=
  ⟨rfl, acceptHo_eq_zero,
    (ghmc_double_randomization Eho gZero gZero uHalf stHo rfl).2.1 acceptHo_eq_zero⟩

/-- C7: every trial of each Metropolized integrator ends with the
unconditional statistics update: `ntrials` increases by exactly one,
`naccept` increases by the binary accept register; consequently, starting
from freshly initialized counters, after any sequence of trials
`naccept` never exceeds `ntrials` and `ntrials` equals the number of
trials taken. -/
theorem metropolized_trial_statistics {n : ℕ} (E : Engine n) (nsteps : Int)
    (sigmax gv gx g g1 g2 : Fin n → ℝ) (u : ℝ) (s : McState n) (t : GhmcState n)
    (lm lg : List ((Fin n → ℝ) × (Fin n → ℝ) × ℝ)) (lh : List ((Fin n → ℝ) × ℝ))
    (x0 v0 : Fin n → ℝ) :
    ((mmcTrial E sigmax gv gx u s).ntrials = s.ntrials + 1) ∧
    ((hmcTrial E nsteps g u s).ntrials = s.ntrials + 1) ∧
    ((ghmcTrial E g1 g2 u t).ntrials = t.ntrials + 1) ∧
    (∃ a, (a = 0 ∨ a = 1) ∧ (mmcTrial E sigmax gv gx u s).naccept = s.naccept + a) ∧
    (∃ a, (a = 0 ∨ a = 1) ∧ (hmcTrial E nsteps g u s).naccept = s.naccept + a) ∧
    ((ghmcTrial E g1 g2 u t).naccept = t.naccept + (ghmcCore E g1 u t.x t.v).accept ∧
      ((ghmcCore E g1 u t.x t.v).accept = 0 ∨ (ghmcCore E g1 u t.x t.v).accept = 1)) ∧
    ((mmcRun E sigmax lm ⟨x0, v0, 0, 0⟩).naccept
        ≤ (mmcRun E sigmax lm ⟨x0, v0, 0, 0⟩).ntrials ∧
      (mmcRun E sigmax lm ⟨x0, v0, 0, 0⟩).ntrials = lm.length) ∧
    ((hmcRun E nsteps lh ⟨x0, v0, 0, 0⟩).naccept
        ≤ (hmcRun E nsteps lh ⟨x0, v0, 0, 0⟩).ntrials ∧
      (hmcRun E nsteps lh ⟨x0, v0, 0, 0⟩).ntrials = lh.length) ∧
    ((ghmcRun E lg ⟨x0, v0, 0, 0⟩).naccept ≤ (ghmcRun E lg ⟨x0, v0, 0, 0⟩).ntrials ∧
      (ghmcRun E lg ⟨x0, v0, 0, 0⟩).ntrials = lg.length) := by
  have hmmc : ∀ (st : McState n) (d : (Fin n → ℝ) × (Fin n → ℝ) × ℝ),
      (mmcTrial E sigmax d.1 d.2.1 d.2.2 st).ntrials = st.ntrials + 1 ∧
      (mmcTrial E sigmax d.1 d.2.1 d.2.2 st).naccept ≤ st.naccept + 1 := by
    intro st d
    refine ⟨rfl, ?_⟩
    exact add_le_add_left (stepFn_le_one _) _
  have hhmc : ∀ (st : McState n) (d : (Fin n → ℝ) × ℝ),
      (hmcTrial E nsteps d.1 d.2 st).ntrials = st.ntrials + 1 ∧
      (hmcTrial E nsteps d.1 d.2 st).naccept ≤ st.naccept + 1 := by
    intro st d
    refine ⟨rfl, ?_⟩
    exact add_le_add_left (stepFn_le_one _) _
  have hghmc : ∀ (st : GhmcState n) (d : (Fin n → ℝ) × (Fin n → ℝ) × ℝ),
      (ghmcTrial E d.1 d.2.1 d.2.2 st).ntrials = st.ntrials + 1 ∧
      (ghmcTrial E d.1 d.2.1 d.2.2 st).naccept ≤ st.naccept + 1 := by
    intro st d
    refine ⟨rfl, ?_⟩
    show st.naccept + (ghmcCore E d.1 d.2.2 st.x st.v).accept ≤ st.naccept + 1
    exact add_le_add_left (stepFn_le_one _) _
  have hm := foldl_counter_invariant _ McState.naccept McState.ntrials hmmc lm
    ⟨x0, v0, 0, 0⟩ le_rfl
  have hh := foldl_counter_invariant _ McState.naccept McState.ntrials hhmc lh
    ⟨x0, v0, 0, 0⟩ le_rfl
  have hg := foldl_counter_invariant _ GhmcState.naccept GhmcState.ntrials hghmc lg
    ⟨x0, v0, 0, 0⟩ le_rfl
  refine ⟨rfl, rfl, rfl, ⟨stepFn _, stepFn_mem _, rfl⟩, ⟨stepFn _, stepFn_mem _, rfl⟩,
    ⟨rfl, stepFn_mem _⟩, ⟨hm.1, by simpa using hm.2⟩, ⟨hh.1, by simpa using hh.2⟩,
    ⟨hg.1, by simpa using hg.2⟩⟩

end OpenMMTools
